import Mathlib

/-!
Verification development for the symforce excerpt: the generated scalar
factor `LandmarkPriorFactor`, the optimizer facade contracts, and the
manifold retraction laws.  Machine scalars are modelled by exact rationals
(`ℚ`); the generated factor performs only field operations, so its exact
semantics is captured faithfully.
-/

/-- The four output slots of a generated factor functor in Hessian form:
residual, Jacobian,Hessian (J^T J) and rhs (J^T r).  For the landmark prior
factor every slot is a 1x1 matrix, embedded as a single rational. -/
structure FactorOut where
  res : ℚ
  jacobian : ℚ
  hessian : ℚ
  rhs : ℚ
deriving DecidableEq, Repr

/-- Shallow embedding of `bundle_adjustment_example::LandmarkPriorFactor`
(landmark_prior_factor.h).  The intermediate terms of the generated code are
`_tmp0 = -inverse_range_prior + landmark`, `_tmp1 = epsilon + sigma`,
`_tmp2 = weight / _tmp1`, `_tmp3 = weight * weight / (_tmp1 * _tmp1)`; the
outputs are `res = _tmp0 * _tmp2`, `jacobian = _tmp2`, `hessian = _tmp3`,
`rhs = _tmp0 * _tmp3`, here written with the intermediates inlined. -/
def LandmarkPriorFactor (landmark inverse_range_prior weight sigma epsilon : ℚ) :
    FactorOut where
  res := (-inverse_range_prior + landmark) * (weight / (epsilon + sigma))
  jacobian := weight / (epsilon + sigma)
  hessian := weight * weight / ((epsilon + sigma) * (epsilon + sigma))
  rhs := (-inverse_range_prior + landmark) *
    (weight * weight / ((epsilon + sigma) * (epsilon + sigma)))

/-- Shallow embedding of the output-pointer discipline of
`LandmarkPriorFactor`: each of the four output pointers is either present
(`true`) or null (`false`), and the function writes a slot exactly when its
pointer is present, leaving the slot's previous contents otherwise.  The
intermediate terms are computed once, as in the generated code. -/
def LandmarkPriorFactorWrite (landmark inverse_range_prior weight sigma epsilon : ℚ)
    (want_res want_jacobian want_hessian want_rhs : Bool) (out : FactorOut) :
    FactorOut :=
  let t0 := -inverse_range_prior + landmark
  let t1 := epsilon + sigma
  let t2 := weight / t1
  let t3 := weight * weight / (t1 * t1)
  let out1 := if want_res then { out with res := t0 * t2 } else out
  let out2 := if want_jacobian then { out1 with jacobian := t2 } else out1
  let out3 := if want_hessian then { out2 with hessian := t3 } else out2
  if want_rhs then { out3 with rhs := t0 * t3 } else out3

/-- Division that records division by zero instead of defaulting: `none`
exactly when the denominator is zero. -/
def divChecked (a b : ℚ) : Option ℚ :=
  if b = 0 then none else some (a / b)

/-- The divisions of `LandmarkPriorFactor`, run with checked division: the
generated code divides exactly twice, by `_tmp1 = epsilon + sigma` and by
`_tmp1 * _tmp1`; no other denominator (in particular never `sigma` alone)
occurs. -/
def LandmarkPriorFactorChecked (landmark inverse_range_prior weight sigma epsilon : ℚ) :
    Option FactorOut :=
  let t0 := -inverse_range_prior + landmark
  let t1 := epsilon + sigma
  (divChecked weight t1).bind fun t2 =>
    (divChecked (weight * weight) (t1 * t1)).bind fun t3 =>
      some ⟨t0 * t2, t2, t3, t0 * t3⟩

/-- C1 counterexample: with μ = 3, w = 2, σ = 1/2 and the spec's
epsilon = 10⁻⁹, at the initial point x = 0 the residual computed by the code
is −6·10⁹/(5·10⁸ + 1), not the claimed w·(x − μ)/σ = −12: the code divides by
σ + ε, not by σ. -/
theorem landmark_prior_res_ne_spec_formula :
    (LandmarkPriorFactor 0 3 2 (1/2) (1/1000000000)).res ≠ 2 * (0 - 3) / (1/2) := by
  norm_num [LandmarkPriorFactor]

/-- C1 (amended): the residual output of `LandmarkPriorFactor` equals
w · (x − μ)/(σ + ε); in particular at x = μ the residual is exactly 0, so the
error ½‖R‖² at the optimum is exactly 0. -/
theorem landmark_prior_res_formula_with_epsilon
    (x mu w sigma epsilon : ℚ) :
    (LandmarkPriorFactor x mu w sigma epsilon).res = w * (x - mu) / (sigma + epsilon) ∧
    (LandmarkPriorFactor mu mu w sigma epsilon).res = 0 ∧
    (1/2) * (LandmarkPriorFactor mu mu w sigma epsilon).res ^ 2 = 0 := by
  refine ⟨?_, ?_, ?_⟩
  · simp only [LandmarkPriorFactor, div_eq_mul_inv]
    ring
  · simp [LandmarkPriorFactor]
  · simp [LandmarkPriorFactor]

/-- C2: the Hessian-form outputs of `LandmarkPriorFactor` satisfy the
normal-equation identities exactly: hessian = jacobian² and
rhs = jacobian · res, for every input. -/
theorem landmark_prior_hessian_form_normal_equations
    (landmark inverse_range_prior weight sigma epsilon : ℚ) :
    (LandmarkPriorFactor landmark inverse_range_prior weight sigma epsilon).hessian =
      (LandmarkPriorFactor landmark inverse_range_prior weight sigma epsilon).jacobian ^ 2 ∧
    (LandmarkPriorFactor landmark inverse_range_prior weight sigma epsilon).rhs =
      (LandmarkPriorFactor landmark inverse_range_prior weight sigma epsilon).jacobian *
        (LandmarkPriorFactor landmark inverse_range_prior weight sigma epsilon).res := by
  constructor <;> simp only [LandmarkPriorFactor, div_eq_mul_inv, mul_inv] <;> ring

/-- C3: `LandmarkPriorFactor` writes exactly the outputs whose pointers are
non-null: each output slot equals the computed value when requested and its
previous contents when the corresponding pointer is null, for every
combination of the four pointers. -/
theorem landmark_prior_writes_only_requested_outputs
    (landmark inverse_range_prior weight sigma epsilon : ℚ)
    (want_res want_jacobian want_hessian want_rhs : Bool) (out : FactorOut) :
    (LandmarkPriorFactorWrite landmark inverse_range_prior weight sigma epsilon
        want_res want_jacobian want_hessian want_rhs out).res =
      (if want_res then
        (LandmarkPriorFactor landmark inverse_range_prior weight sigma epsilon).res
      else out.res) ∧
    (LandmarkPriorFactorWrite landmark inverse_range_prior weight sigma epsilon
        want_res want_jacobian want_hessian want_rhs out).jacobian =
      (if want_jacobian then
        (LandmarkPriorFactor landmark inverse_range_prior weight sigma epsilon).jacobian
      else out.jacobian) ∧
    (LandmarkPriorFactorWrite landmark inverse_range_prior weight sigma epsilon
        want_res want_jacobian want_hessian want_rhs out).hessian =
      (if want_hessian then
        (LandmarkPriorFactor landmark inverse_range_prior weight sigma epsilon).hessian
      else out.hessian) ∧
    (LandmarkPriorFactorWrite landmark inverse_range_prior weight sigma epsilon
        want_res want_jacobian want_hessian want_rhs out).rhs =
      (if want_rhs then
        (LandmarkPriorFactor landmark inverse_range_prior weight sigma epsilon).rhs
      else out.rhs) := by
  cases want_res <;> cases want_jacobian <;> cases want_hessian <;> cases want_rhs <;>
    simp [LandmarkPriorFactorWrite, LandmarkPriorFactor]

/-- C4 counterexample: with w = 2, σ = 1/2 and the spec's epsilon = 10⁻⁹, the
inverse of the hessian output is ((σ + ε)/w)², which is not exactly
(σ/w)² = 0.0625 = 1/16. -/
theorem landmark_prior_covariance_ne_sixteenth :
    ((LandmarkPriorFactor 3 3 2 (1/2) (1/1000000000)).hessian)⁻¹ ≠ 1/16 := by
  norm_num [LandmarkPriorFactor]

/-- C4 (amended): in exact arithmetic the hessian output of
`LandmarkPriorFactor` is (w/(σ + ε))² and its inverse — the covariance of the
single key — is ((σ + ε)/w)²; this equals (σ/w)² exactly when ε = 0, and with
w = 2, σ = 1/2, ε = 0 it is 1/16 = 0.0625. -/
theorem landmark_prior_hessian_and_inverse_formula
    (landmark inverse_range_prior weight sigma epsilon : ℚ) :
    (LandmarkPriorFactor landmark inverse_range_prior weight sigma epsilon).hessian =
      (weight / (sigma + epsilon)) ^ 2 ∧
    ((LandmarkPriorFactor landmark inverse_range_prior weight sigma epsilon).hessian)⁻¹ =
      ((sigma + epsilon) / weight) ^ 2 ∧
    ((LandmarkPriorFactor landmark inverse_range_prior 2 (1/2) 0).hessian)⁻¹ = 1/16 := by
  refine ⟨?_, ?_, by norm_num [LandmarkPriorFactor]⟩
  · simp only [LandmarkPriorFactor]
    rw [div_pow, pow_two, pow_two, add_comm epsilon sigma]
  · simp only [LandmarkPriorFactor]
    rw [show weight * weight / ((epsilon + sigma) * (epsilon + sigma)) =
      (weight / (sigma + epsilon)) ^ 2 by rw [div_pow, pow_two, pow_two, add_comm epsilon sigma],
      ← inv_pow, inv_div]

/-- C9: the jacobian and hessian outputs of `LandmarkPriorFactor` depend only
on (weight, sigma, epsilon): two calls agreeing on those three inputs but
differing arbitrarily in landmark and inverse_range_prior produce identical
jacobian and hessian outputs. -/
theorem landmark_prior_jacobian_hessian_independent_of_landmark
    (landmark₁ inverse_range_prior₁ landmark₂ inverse_range_prior₂
      weight sigma epsilon : ℚ) :
    (LandmarkPriorFactor landmark₁ inverse_range_prior₁ weight sigma epsilon).jacobian =
      (LandmarkPriorFactor landmark₂ inverse_range_prior₂ weight sigma epsilon).jacobian ∧
    (LandmarkPriorFactor landmark₁ inverse_range_prior₁ weight sigma epsilon).hessian =
      (LandmarkPriorFactor landmark₂ inverse_range_prior₂ weight sigma epsilon).hessian := by
  exact ⟨rfl, rfl⟩

/-- C10: under the precondition sigma + epsilon ≠ 0, every division inside
`LandmarkPriorFactor` (the denominators are exactly σ + ε and (σ + ε)²) is
well-defined, and the checked evaluation produces precisely the four outputs
of the factor; in particular sigma = 0 is safe whenever epsilon ≠ 0. -/
theorem landmark_prior_checked_division_safe
    (landmark inverse_range_prior weight sigma epsilon : ℚ)
    (h : sigma + epsilon ≠ 0) :
    LandmarkPriorFactorChecked landmark inverse_range_prior weight sigma epsilon =
      some (LandmarkPriorFactor landmark inverse_range_prior weight sigma epsilon) := by
  have h1 : epsilon + sigma ≠ 0 := by rwa [add_comm]
  have h2 : (epsilon + sigma) * (epsilon + sigma) ≠ 0 := mul_ne_zero h1 h1
  simp [LandmarkPriorFactorChecked, divChecked, h1, h2, LandmarkPriorFactor]

/-- C10 witness: at sigma = 0, epsilon = 1 the precondition holds and the
checked evaluation succeeds. -/
theorem landmark_prior_checked_division_safe_witness :
    ((0 : ℚ) + 1 ≠ 0) ∧
    LandmarkPriorFactorChecked 5 3 2 0 1 = some (LandmarkPriorFactor 5 3 2 0 1) :=
  ⟨by norm_num, landmark_prior_checked_division_safe 5 3 2 0 1 (by norm_num)⟩

/-- Modelled from the spec: the terminal states of the Levenberg–Marquardt
driver, `ITERATING → {CONVERGED, MAX_ITERATIONS, DIVERGED, NUMERICAL_FAILURE}`.
The driver implementation (optimizer.tcc / levenberg_marquardt_solver.h) is
not part of the excerpt; only optimizer.h declares it. -/
inductive LMStatus where
  | CONVERGED : LMStatus
  | MAX_ITERATIONS : LMStatus
  | DIVERGED : LMStatus
  | NUMERICAL_FAILURE : LMStatus
deriving DecidableEq, Repr

/-- Modelled from the spec: `Optimizer::IterateToConvergence` calls the
nonlinear solver's single-iteration step on the state until the step reports
a terminal status or the iteration budget runs out, in which case the exit
status is MAX_ITERATIONS.  The step function returns the updated state and
`none` while still iterating. -/
def iterateToConvergence {σ : Type} (iterate : σ → σ × Option LMStatus) :
    ℕ → σ → σ × LMStatus
  | 0, s => (s, LMStatus.MAX_ITERATIONS)
  | Nat.succ n, s =>
    match iterate s with
    | (s', some status) => (s', status)
    | (s', none) => iterateToConvergence iterate n s'

/-- Modelled from the spec: `Optimizer::Optimize` runs the LM driver to
termination and returns the final state together with a Bool that is `true`
exactly on the CONVERGED exit. -/
def Optimize {σ : Type} (iterate : σ → σ × Option LMStatus) (num_iterations : ℕ)
    (s : σ) : σ × Bool :=
  let r := iterateToConvergence iterate num_iterations s
  (r.1,
    match r.2 with
    | LMStatus.CONVERGED => true
    | _ => false)

/-- C5: for every state, iteration step function and iteration budget,
`Optimize` returns true if and only if the LM driver exited in the CONVERGED
state; every other exit status (MAX_ITERATIONS, DIVERGED, NUMERICAL_FAILURE)
yields false. -/
theorem optimize_true_iff_converged {σ : Type} (iterate : σ → σ × Option LMStatus)
    (num_iterations : ℕ) (s : σ) :
    (Optimize iterate num_iterations s).2 = true ↔
      (iterateToConvergence iterate num_iterations s).2 = LMStatus.CONVERGED := by
  unfold Optimize
  cases h : (iterateToConvergence iterate num_iterations s).2 <;> simp [h]

/-- Modelled from the spec: the retraction of the scalar and vector (matrix
Lie group) manifold types, where the tangent space coincides with the space
itself and retraction is addition; the epsilon argument of the manifold
contract is threaded through but unused for these types. -/
def vecRetract {n : ℕ} (x v : Fin n → ℚ) (_epsilon : ℚ) : Fin n → ℚ :=
  fun i => x i + v i

/-- Modelled from the spec: local coordinates of the scalar and vector
manifold types, the inverse of `vecRetract`, which is subtraction. -/
def vecLocalCoordinates {n : ℕ} (a b : Fin n → ℚ) (_epsilon : ℚ) : Fin n → ℚ :=
  fun i => b i - a i

/-- Modelled from the spec: the manifold contract that every supported
manifold type satisfies (the manifold primitives themselves — Rot2, Rot3,
Pose2, Pose3, scalars and vectors — are external collaborators, absent from
the excerpt).  A supported type carries a point type P, a tangent type V
with its zero vector, and retract / local_coordinates threaded with epsilon,
where per the spec local_coordinates is the inverse of retract — it maps
(a, b) to the tangent vector taking a to b — and retract is a first-order
approximation to the exp-map near x, so retracting by the zero tangent
vector stays at x. -/
structure SupportedManifold (P V : Type) where
  zeroTangent : V
  retract : P → V → ℚ → P
  localCoordinates : P → P → ℚ → V
  retract_zero : ∀ (x : P) (epsilon : ℚ), retract x zeroTangent epsilon = x
  localCoordinates_retract : ∀ (x : P) (v : V) (epsilon : ℚ),
    localCoordinates x (retract x v epsilon) epsilon = v
  retract_localCoordinates : ∀ (x y : P) (epsilon : ℚ),
    retract x (localCoordinates x y epsilon) epsilon = y

/-- The scalar and vector (matrix Lie group) manifold types satisfy the
manifold contract, with retraction given by `vecRetract` and local
coordinates by `vecLocalCoordinates`. -/
def vecManifold (n : ℕ) : SupportedManifold (Fin n → ℚ) (Fin n → ℚ) where
  zeroTangent := fun _ => 0
  retract := vecRetract
  localCoordinates := vecLocalCoordinates
  retract_zero := by
    intro x epsilon
    funext i
    simp [vecRetract]
  localCoordinates_retract := by
    intro x v epsilon
    funext i
    simp [vecRetract, vecLocalCoordinates]
  retract_localCoordinates := by
    intro x y epsilon
    funext i
    simp [vecRetract, vecLocalCoordinates]

/-- The Lie group manifold types (the pattern of Rot2, Rot3, Pose2, Pose3)
satisfy the manifold contract: retraction composes x with the group element
reached by the tangent vector, and local coordinates are the between
operation a⁻¹ · b; tangent vectors are represented here by the group
elements they reach under the exponential map, so the group operations are
exact. -/
def groupManifold (G : Type) [Group G] : SupportedManifold G G where
  zeroTangent := 1
  retract := fun x v _ => x * v
  localCoordinates := fun a b _ => a⁻¹ * b
  retract_zero := fun x _ => mul_one x
  localCoordinates_retract := fun x v _ => inv_mul_cancel_left x v
  retract_localCoordinates := fun x y _ => mul_inv_cancel_left x y

/-- C8: for every supported manifold type — every carrier of the spec's
manifold contract — and all points x, y: retract(x, 0) = x and
local_coordinates(x, x) = 0 hold exactly (so in particular up to epsilon),
and the round-trip law retract(x, local_coordinates(x, y)) = y holds exactly
(so in particular for y near x, within any manifold-dependent tolerance). -/
theorem supported_manifold_retract_local_coordinates_laws
    {P V : Type} (M : SupportedManifold P V) (x y : P) (epsilon : ℚ) :
    M.retract x M.zeroTangent epsilon = x ∧
    M.localCoordinates x x epsilon = M.zeroTangent ∧
    M.retract x (M.localCoordinates x y epsilon) epsilon = y := by
  refine ⟨M.retract_zero x epsilon, ?_, M.retract_localCoordinates x y epsilon⟩
  have h := M.localCoordinates_retract x M.zeroTangent epsilon
  rwa [M.retract_zero x epsilon] at h

/-- Entry of a square rational matrix addressed by natural-number indices,
defaulting to 0 outside the matrix. -/
def entryN {N : ℕ} (H : Matrix (Fin N) (Fin N) ℚ) (a b : ℕ) : ℚ :=
  if h : a < N ∧ b < N then H ⟨a, h.1⟩ ⟨b, h.2⟩ else 0

/-- Rectangular sub-block of a square rational matrix, of size m × k,
starting at row offset ro and column offset co. -/
def subBlock {N : ℕ} (H : Matrix (Fin N) (Fin N) ℚ) (ro co m k : ℕ) :
    Matrix (Fin m) (Fin k) ℚ :=
  Matrix.of fun i j => entryN H (ro + i) (co + j)

/-- Computable inverse of a square rational matrix via determinant and
adjugate; it agrees with Mathlib's matrix inverse on every input. -/
def qInv {n : ℕ} (A : Matrix (Fin n) (Fin n) ℚ) : Matrix (Fin n) (Fin n) ℚ :=
  (A.det)⁻¹ • A.adjugate

theorem qInv_eq_inv {n : ℕ} (A : Matrix (Fin n) (Fin n) ℚ) : qInv A = A⁻¹ := by
  unfold qInv
  rw [Matrix.inv_def, Ring.inverse_eq_inv]

/-- Modelled from the spec: the Schur complement S = B − E C⁻¹ Eᵀ of the
Hessian partitioned as H = [B E; Eᵀ C]; the implementation of
`Optimizer::ComputeCovariances` (optimizer.tcc) is not part of the excerpt,
only optimizer.h declares it. -/
def schurComplement {m k : ℕ} (B : Matrix (Fin m) (Fin m) ℚ)
    (E : Matrix (Fin m) (Fin k) ℚ) (C : Matrix (Fin k) (Fin k) ℚ) :
    Matrix (Fin m) (Fin m) ℚ :=
  B - E * qInv C * E.transpose

/-- Tangent-space offset of the i-th key in a list of per-key tangent
dimensions. -/
def keyOffset (dims : List ℕ) (i : ℕ) : ℕ :=
  (dims.take i).sum

/-- Modelled from the spec: `Optimizer::ComputeCovariances` on a problem
whose full ordered key list has per-key tangent dimensions `fullDims`, given
the assembled Hessian H and requested keys with per-key tangent dimensions
`keys`: partition H at m = sum of requested dims into [B E; Eᵀ C], invert
the Schur complement S = B − E C⁻¹ Eᵀ, and return for requested key i the
(a, b) entry of the diagonal block of S⁻¹ at the key's offset (zero outside
the key's block). -/
def computeCovariances (fullDims keys : List ℕ)
    (H : Matrix (Fin fullDims.sum) (Fin fullDims.sum) ℚ) (i a b : ℕ) : ℚ :=
  if a < keys.getD i 0 ∧ b < keys.getD i 0 then
    entryN (qInv (schurComplement (subBlock H 0 0 keys.sum keys.sum)
        (subBlock H 0 keys.sum keys.sum (fullDims.sum - keys.sum))
        (subBlock H keys.sum keys.sum (fullDims.sum - keys.sum) (fullDims.sum - keys.sum))))
      (keyOffset keys i + a) (keyOffset keys i + b)
  else 0

theorem sum_take_add_lt {l : List ℕ} {i a : ℕ} (hi : i < l.length)
    (ha : a < l.getD i 0) : (l.take i).sum + a < l.sum := by
  induction l generalizing i with
  | nil => simp at hi
  | cons x xs ih =>
    cases i with
    | zero =>
      simp only [List.getD_cons_zero] at ha
      simp only [List.take_zero, List.sum_nil, List.sum_cons, Nat.zero_add]
      omega
    | succ n =>
      simp only [List.getD_cons_succ] at ha
      simp only [List.take_succ_cons, List.sum_cons]
      have hlen : n < xs.length := by
        simpa [Nat.succ_lt_succ_iff] using hi
      have := ih hlen ha
      omega

/-- C6: under the precondition that the requested keys are a prefix of the
full ordered key list, `computeCovariances` returns for each requested key
the corresponding diagonal block of the inverse of the Schur complement
S = B − E C⁻¹ Eᵀ of the partitioned Hessian; moreover the prefix condition
aligns each requested key's offset in the full problem with its offset in
the requested block B, the extracted entries lie inside S⁻¹, and the
partition point does not exceed the problem size. -/
theorem compute_covariances_schur_block
    (fullDims keys : List ℕ) (H : Matrix (Fin fullDims.sum) (Fin fullDims.sum) ℚ)
    (i a b : ℕ) (hpre : keys <+: fullDims) (hi : i < keys.length)
    (ha : a < keys.getD i 0) (hb : b < keys.getD i 0) :
    computeCovariances fullDims keys H i a b =
      entryN ((schurComplement (subBlock H 0 0 keys.sum keys.sum)
          (subBlock H 0 keys.sum keys.sum (fullDims.sum - keys.sum))
          (subBlock H keys.sum keys.sum (fullDims.sum - keys.sum)
            (fullDims.sum - keys.sum)))⁻¹)
        (keyOffset keys i + a) (keyOffset keys i + b) ∧
    keyOffset fullDims i = keyOffset keys i ∧
    keyOffset keys i + a < keys.sum ∧
    keys.sum ≤ fullDims.sum := by
  obtain ⟨t, ht⟩ := hpre
  refine ⟨?_, ?_, sum_take_add_lt hi ha, ?_⟩
  · simp only [computeCovariances]
    rw [if_pos ⟨ha, hb⟩, qInv_eq_inv]
  · rw [← ht]
    unfold keyOffset
    rw [List.take_append_of_le_length (le_of_lt hi)]
  · rw [← ht, List.sum_append]
    exact Nat.le_add_right _ _

/-- C6 witness: on the two-key problem with unit dimensions [1, 1], the
requested single key [1] is a prefix, and the covariance entry of key 0 is
the (0, 0) entry of the inverse Schur complement of the identity Hessian. -/
theorem compute_covariances_schur_block_witness :
    ([1] <+: [1, 1]) ∧ (0 < List.length [1]) ∧ (0 < List.getD [1] 0 0) ∧
    (computeCovariances [1, 1] [1]
        (1 : Matrix (Fin (List.sum [1, 1])) (Fin (List.sum [1, 1])) ℚ) 0 0 0 =
      entryN ((schurComplement
          (subBlock (1 : Matrix (Fin (List.sum [1, 1])) (Fin (List.sum [1, 1])) ℚ)
            0 0 (List.sum [1]) (List.sum [1]))
          (subBlock (1 : Matrix (Fin (List.sum [1, 1])) (Fin (List.sum [1, 1])) ℚ)
            0 (List.sum [1]) (List.sum [1]) (List.sum [1, 1] - List.sum [1]))
          (subBlock (1 : Matrix (Fin (List.sum [1, 1])) (Fin (List.sum [1, 1])) ℚ)
            (List.sum [1]) (List.sum [1]) (List.sum [1, 1] - List.sum [1])
            (List.sum [1, 1] - List.sum [1])))⁻¹)
        (keyOffset [1] 0 + 0) (keyOffset [1] 0 + 0) ∧
      keyOffset [1, 1] 0 = keyOffset [1] 0 ∧
      keyOffset [1] 0 + 0 < List.sum [1] ∧
      List.sum [1] ≤ List.sum [1, 1]) :=
  ⟨⟨[1], rfl⟩, by decide, by decide,
    compute_covariances_schur_block [1, 1] [1] 1 0 0 0 ⟨[1], rfl⟩ (by decide) (by decide)
      (by decide)⟩
